import Mathlib

/-!
Verification of the login-items bookmark extractor
(src/loginitems_plist.rs) against its specification.

The property-list value tree (the `plist::Value` type consumed by the
code) is embedded as an inductive `Value`; byte buffers (`Vec<u8>`,
`&[u8]`) are `List Nat`; the ordered `plist::Dictionary` is a list of
key/value pairs in insertion order.  The `warn!` log macro is modelled
as an output channel: functions return the accumulated list of warning
messages next to the collected bookmark blobs.  The fallible
`Result<_, Box<dyn Error>>` return types become `Except`.
-/

namespace LoginItems

/-- The plist value tree: dictionaries (ordered key/value lists), arrays,
raw byte data, strings, and the remaining scalar kinds (unused by the
code) collapsed into `other`. -/
inductive Value where
  | string (s : String)
  | data (bytes : List Nat)
  | array (items : List Value)
  | dictionary (entries : List (String × Value))
  | other

/-- `plist::Dictionary`: an ordered mapping, insertion order preserved. -/
abbrev Dictionary := List (String × Value)

/-- Embedding of `Value::as_data`: `Some` exactly on the `Data` variant. -/
def as_data : Value → Option (List Nat)
  | Value.data bytes => some bytes
  | _ => none

/-- Embedding of `Value::as_array`: `Some` exactly on the `Array` variant. -/
def as_array : Value → Option (List Value)
  | Value.array items => some items
  | _ => none

/-- Embedding of `Value::as_dictionary`: `Some` exactly on the
`Dictionary` variant. -/
def as_dictionary : Value → Option Dictionary
  | Value.dictionary entries => some entries
  | _ => none

/-- The error built by `get_bookmarks` for a non-array `$objects` value:
`io::Error::new(ErrorKind::InvalidInput, "Incorrect plist type. Expected array.")`. -/
structure ExtractionError where
  kind : String
  description : String
deriving DecidableEq

/-- `let min_bookmark_size = 48;` — minimum bookmark size (48-byte header). -/
def min_bookmark_size : Nat := 48

/-- Body of the `Value::Data(_)` arm of the array loop in
`get_array_values`: match on the result of `as_data`; on `Some` push the
bytes, on `None` emit the warning `"No PLIST data"`. -/
def handle_top_data (plist_data : Option (List Nat)) (acc : List (List Nat))
    (warns : List String) : List (List Nat) × List String :=
  match plist_data with
  | some plist_results => (acc ++ [plist_results], warns)
  | none => (acc, warns ++ ["No PLIST data"])

/-- Body of the `Value::Data(_)` arm of the nested-dictionary loop in
`get_array_values`: match on the result of `as_data`; on `Some` push the
bytes only if their length is at least `min_bookmark_size`, on `None`
emit the warning `"No PLIST data in dictionary"`. -/
def handle_dict_data (plist_data : Option (List Nat)) (acc : List (List Nat))
    (warns : List String) : List (List Nat) × List String :=
  match plist_data with
  | some plist_results =>
      if plist_results.length < min_bookmark_size then (acc, warns)
      else (acc ++ [plist_results], warns)
  | none => (acc, warns ++ ["No PLIST data in dictionary"])

/-- Body of the nested-dictionary loop of `get_array_values`: dispatch on
the entry value; `Data` goes through `handle_dict_data`, every other
variant is skipped (`_ => continue`). -/
def handle_dict_entry (dict_data : Value) (acc : List (List Nat))
    (warns : List String) : List (List Nat) × List String :=
  match dict_data with
  | Value.data _ => handle_dict_data (as_data dict_data) acc warns
  | _ => (acc, warns)

/-- Body of the array loop of `get_array_values`: dispatch on the element
variant; `Data` goes through `handle_top_data`, `Dictionary` iterates its
entries (keys discarded) through `handle_dict_entry`, every other variant
is skipped (`_ => continue`). -/
def handle_element (data : Value) (acc : List (List Nat))
    (warns : List String) : List (List Nat) × List String :=
  match data with
  | Value.data _ => handle_top_data (as_data data) acc warns
  | Value.dictionary _ =>
      match as_dictionary data with
      | some dict =>
          dict.foldl (fun st entry => handle_dict_entry entry.2 st.1 st.2) (acc, warns)
      | none => (acc, warns)
  | _ => (acc, warns)

/-- Embedding of `get_array_values`: start from an empty accumulator,
match `value.as_array()`; on `Some` fold the loop body over the elements,
on `None` return the (empty) accumulator.  The function never produces an
error.  The second component of the payload is the list of emitted
warnings. -/
def get_array_values (value : Value) :
    Except ExtractionError (List (List Nat) × List String) :=
  match as_array value with
  | some data_results =>
      Except.ok (data_results.foldl (fun st d => handle_element d st.1 st.2) ([], []))
  | none => Except.ok ([], [])

/-- Embedding of the loop body of `get_bookmarks` after the plist file has
been deserialized into a dictionary (the spec's `extract_bookmarks`): scan
the entries in order, skip keys other than `"$objects"`; at the first
`"$objects"` entry return `get_array_values` of an `Array` value or fail
with the `InvalidInput` error otherwise; if no entry matches, return the
empty result. -/
def extract_bookmarks : Dictionary → Except ExtractionError (List (List Nat) × List String)
  | [] => Except.ok ([], [])
  | (key, value) :: rest =>
      if key ≠ "$objects" then extract_bookmarks rest
      else
        match value with
        | Value.array _ => get_array_values value
        | _ => Except.error ⟨"InvalidInput", "Incorrect plist type. Expected array."⟩

/-- Embedding of `get_app_loginitems`: propagate the loader's result
unchanged — `let login_items: Dictionary = plist::from_file(path)?;
Ok(login_items)`.  The loader's error type is opaque to the code. -/
def get_app_loginitems {ε : Type} (load_result : Except ε Dictionary) :
    Except ε Dictionary :=
  match load_result with
  | Except.ok login_items => Except.ok login_items
  | Except.error e => Except.error e

/-- Specification-level blob contribution of one nested-dictionary entry
value: its bytes when it is `Data` of length at least
`min_bookmark_size`, nothing otherwise. -/
def entry_blobs : Value → List (List Nat)
  | Value.data bytes => if bytes.length < min_bookmark_size then [] else [bytes]
  | _ => []

/-- Specification-level blob contribution of a nested dictionary: the
concatenation of its entries' contributions in order. -/
def dict_blobs : Dictionary → List (List Nat)
  | [] => []
  | e :: rest => entry_blobs e.2 ++ dict_blobs rest

/-- Specification-level blob contribution of one array element: its bytes
for `Data`, the dictionary contribution for `Dictionary`, nothing for any
other variant. -/
def elem_blobs : Value → List (List Nat)
  | Value.data bytes => [bytes]
  | Value.dictionary entries => dict_blobs entries
  | _ => []

/-- Specification-level result of traversing the `$objects` array: the
concatenation of the elements' contributions in order. -/
def spec_blobs : List Value → List (List Nat)
  | [] => []
  | v :: rest => elem_blobs v ++ spec_blobs rest

lemma handle_dict_entry_eq (w : Value) (acc : List (List Nat)) (warns : List String) :
    handle_dict_entry w acc warns = (acc ++ entry_blobs w, warns) := by
  cases w <;> simp [handle_dict_entry, handle_dict_data, as_data, entry_blobs]
  split <;> simp

lemma dict_foldl_eq (d : Dictionary) : ∀ (acc : List (List Nat)) (warns : List String),
    d.foldl (fun st entry => handle_dict_entry entry.2 st.1 st.2) (acc, warns)
      = (acc ++ dict_blobs d, warns) := by
  induction d with
  | nil => intro acc warns; simp [dict_blobs]
  | cons e rest ih =>
      intro acc warns
      rw [List.foldl_cons, handle_dict_entry_eq, ih]
      simp [dict_blobs, List.append_assoc]

lemma handle_element_eq (v : Value) (acc : List (List Nat)) (warns : List String) :
    handle_element v acc warns = (acc ++ elem_blobs v, warns) := by
  cases v <;>
    simp [handle_element, handle_top_data, as_data, as_dictionary, elem_blobs, dict_foldl_eq]

lemma array_foldl_eq (vs : List Value) : ∀ (acc : List (List Nat)) (warns : List String),
    vs.foldl (fun st d => handle_element d st.1 st.2) (acc, warns)
      = (acc ++ spec_blobs vs, warns) := by
  induction vs with
  | nil => intro acc warns; simp [spec_blobs]
  | cons v rest ih =>
      intro acc warns
      rw [List.foldl_cons, handle_element_eq, ih]
      simp [spec_blobs, List.append_assoc]

/-- Closed form of `get_array_values` on an array: success, the
specification-level blob list, and no warnings. -/
lemma get_array_values_array (vs : List Value) :
    get_array_values (Value.array vs) = Except.ok (spec_blobs vs, []) := by
  simp [get_array_values, as_array, array_foldl_eq]

lemma get_array_values_not_array (v : Value) (h : as_array v = none) :
    get_array_values v = Except.ok ([], []) := by
  simp [get_array_values, h]

lemma spec_blobs_append (xs ys : List Value) :
    spec_blobs (xs ++ ys) = spec_blobs xs ++ spec_blobs ys := by
  induction xs with
  | nil => simp [spec_blobs]
  | cons v rest ih => simp [spec_blobs, ih, List.append_assoc]

lemma dict_blobs_append (xs ys : Dictionary) :
    dict_blobs (xs ++ ys) = dict_blobs xs ++ dict_blobs ys := by
  induction xs with
  | nil => simp [dict_blobs]
  | cons e rest ih => simp [dict_blobs, ih, List.append_assoc]

lemma extract_bookmarks_skip (k : String) (v : Value) (rest : Dictionary)
    (h : k ≠ "$objects") :
    extract_bookmarks ((k, v) :: rest) = extract_bookmarks rest := by
  simp [extract_bookmarks, h]

lemma extract_bookmarks_objects_array (vs : List Value) (rest : Dictionary) :
    extract_bookmarks (("$objects", Value.array vs) :: rest)
      = Except.ok (spec_blobs vs, []) := by
  simp [extract_bookmarks, get_array_values_array]

lemma extract_bookmarks_skip_all (pre : Dictionary)
    (h : ∀ e ∈ pre, e.1 ≠ "$objects") (rest : Dictionary) :
    extract_bookmarks (pre ++ rest) = extract_bookmarks rest := by
  induction pre with
  | nil => simp
  | cons e tl ih =>
      have he : e.1 ≠ "$objects" := h e (List.mem_cons_self e tl)
      have htl : ∀ x ∈ tl, x.1 ≠ "$objects" := fun x hx => h x (List.mem_cons_of_mem e hx)
      calc extract_bookmarks ((e :: tl) ++ rest)
          = extract_bookmarks ((e.1, e.2) :: (tl ++ rest)) := by simp
        _ = extract_bookmarks (tl ++ rest) := extract_bookmarks_skip e.1 e.2 (tl ++ rest) he
        _ = extract_bookmarks rest := ih htl

lemma extract_bookmarks_objects_not_array (v : Value) (hv : as_array v = none)
    (rest : Dictionary) :
    extract_bookmarks (("$objects", v) :: rest)
      = Except.error ⟨"InvalidInput", "Incorrect plist type. Expected array."⟩ := by
  cases v <;> simp_all [extract_bookmarks, as_array]

lemma mem_dict_blobs (d : Dictionary) (k : String) (bs : List Nat)
    (hmem : (k, Value.data bs) ∈ d) (hlen : min_bookmark_size ≤ bs.length) :
    bs ∈ dict_blobs d := by
  induction d with
  | nil => cases hmem
  | cons e rest ih =>
      rcases List.mem_cons.mp hmem with he | hrest
      · simp [dict_blobs, ← he, entry_blobs, Nat.not_lt.mpr hlen]
      · simp only [dict_blobs, List.mem_append]
        exact Or.inr (ih hrest)

lemma mem_dict_blobs_source (d : Dictionary) (bs : List Nat) (h : bs ∈ dict_blobs d) :
    ∃ k, (k, Value.data bs) ∈ d := by
  induction d with
  | nil => simp [dict_blobs] at h
  | cons e rest ih =>
      simp only [dict_blobs, List.mem_append] at h
      rcases h with h1 | h2
      · refine ⟨e.1, ?_⟩
        cases he : e.2 <;> simp [entry_blobs, he] at h1
        rcases h1 with ⟨-, h1⟩
        have he2 : e = (e.1, Value.data bs) := by rw [h1, ← he]
        exact he2 ▸ List.mem_cons_self e rest
      · obtain ⟨k, hk⟩ := ih h2
        exact ⟨k, List.mem_cons_of_mem e hk⟩

lemma mem_spec_blobs_source (vs : List Value) (bs : List Nat) (h : bs ∈ spec_blobs vs) :
    Value.data bs ∈ vs ∨ ∃ d, Value.dictionary d ∈ vs ∧ ∃ k, (k, Value.data bs) ∈ d := by
  induction vs with
  | nil => simp [spec_blobs] at h
  | cons v rest ih =>
      simp only [spec_blobs, List.mem_append] at h
      rcases h with h1 | h2
      · cases v <;> simp [elem_blobs] at h1
        · subst h1
          exact Or.inl (List.mem_cons_self _ _)
        · rename_i entries
          obtain ⟨k, hk⟩ := mem_dict_blobs_source entries bs h1
          exact Or.inr ⟨entries, List.mem_cons_self _ _, k, hk⟩
      · rcases ih h2 with hl | ⟨d, hd, k, hk⟩
        · exact Or.inl (List.mem_cons_of_mem v hl)
        · exact Or.inr ⟨d, List.mem_cons_of_mem v hd, k, hk⟩

lemma extract_ok_source (root : Dictionary) (out : List (List Nat)) (warns : List String)
    (h : extract_bookmarks root = Except.ok (out, warns)) (bs : List Nat) (hbs : bs ∈ out) :
    ∃ vs, ("$objects", Value.array vs) ∈ root ∧ bs ∈ spec_blobs vs := by
  induction root with
  | nil =>
      simp [extract_bookmarks] at h
      rw [h.1] at hbs
      cases hbs
  | cons e rest ih =>
      obtain ⟨k, v⟩ := e
      by_cases hk : k = "$objects"
      · subst hk
        cases hva : as_array v with
        | none =>
            rw [extract_bookmarks_objects_not_array v hva rest] at h
            cases h
        | some vs =>
            have hv : v = Value.array vs := by cases v <;> simp_all [as_array]
            subst hv
            rw [extract_bookmarks_objects_array] at h
            have hout : spec_blobs vs = out := by
              have := congrArg (fun r => match r with
                | Except.ok (p : List (List Nat) × List String) => p.1
                | Except.error _ => []) h
              simpa using this
            exact ⟨vs, List.mem_cons_self _ rest, hout ▸ hbs⟩
      · rw [extract_bookmarks_skip k v rest hk] at h
        obtain ⟨vs, hmem, hb⟩ := ih h
        exact ⟨vs, List.mem_cons_of_mem _ hmem, hb⟩

/-- C1: a Data entry of a dictionary nested inside the `$objects` array is
included exactly when its length is at least 48 bytes (`min_bookmark_size`):
the general equation filters with length at the 48 boundary, a 47-byte entry
is excluded, a 48-byte entry is included, and exclusion is silent (success,
no warnings). -/
theorem claim_C1 :
    (∀ (pre post : Dictionary) (k : String) (bs : List Nat),
        extract_bookmarks [("$objects",
            Value.array [Value.dictionary (pre ++ (k, Value.data bs) :: post)])]
          = Except.ok (dict_blobs pre
              ++ (if bs.length < min_bookmark_size then [] else [bs])
              ++ dict_blobs post, []))
    ∧ extract_bookmarks [("$objects",
          Value.array [Value.dictionary [("x", Value.data (List.replicate 47 0))]])]
        = Except.ok ([], [])
    ∧ extract_bookmarks [("$objects",
          Value.array [Value.dictionary [("x", Value.data (List.replicate 48 0))]])]
        = Except.ok ([List.replicate 48 0], []) := by
  have hgen : ∀ (pre post : Dictionary) (k : String) (bs : List Nat),
      extract_bookmarks [("$objects",
          Value.array [Value.dictionary (pre ++ (k, Value.data bs) :: post)])]
        = Except.ok (dict_blobs pre
            ++ (if bs.length < min_bookmark_size then [] else [bs])
            ++ dict_blobs post, []) := by
    intro pre post k bs
    rw [extract_bookmarks_objects_array]
    simp [spec_blobs, elem_blobs, dict_blobs_append, dict_blobs, entry_blobs,
      List.append_assoc]
  refine ⟨hgen, ?_, ?_⟩
  · have h := hgen [] [] "x" (List.replicate 47 0)
    simpa [min_bookmark_size, dict_blobs] using h
  · have h := hgen [] [] "x" (List.replicate 48 0)
    simpa [min_bookmark_size, dict_blobs] using h

/-- C2: a Data element directly in the `$objects` array is appended
unconditionally, with no minimum-size filter; in particular a 3-byte
top-level Data element is included. -/
theorem claim_C2 :
    (∀ (pre post : List Value) (bs : List Nat),
        extract_bookmarks [("$objects", Value.array (pre ++ Value.data bs :: post))]
          = Except.ok (spec_blobs pre ++ [bs] ++ spec_blobs post, []))
    ∧ extract_bookmarks [("$objects", Value.array [Value.data [1, 2, 3]])]
        = Except.ok ([[1, 2, 3]], []) := by
  have hgen : ∀ (pre post : List Value) (bs : List Nat),
      extract_bookmarks [("$objects", Value.array (pre ++ Value.data bs :: post))]
        = Except.ok (spec_blobs pre ++ [bs] ++ spec_blobs post, []) := by
    intro pre post bs
    rw [extract_bookmarks_objects_array]
    simp [spec_blobs_append, spec_blobs, elem_blobs, List.append_assoc]
  refine ⟨hgen, ?_⟩
  have h := hgen [] [] [1, 2, 3]
  simpa [spec_blobs] using h

/-- C3: when the first `$objects` entry of the root dictionary holds a
non-Array value, extraction fails with the unexpected-type error whose
description names the expected type, "array". -/
theorem claim_C3 (pre : Dictionary) (hpre : ∀ e ∈ pre, e.1 ≠ "$objects")
    (v : Value) (hv : as_array v = none) (rest : Dictionary) :
    extract_bookmarks (pre ++ ("$objects", v) :: rest)
      = Except.error ⟨"InvalidInput", "Incorrect plist type. Expected array."⟩
    ∧ "array".toList <:+: "Incorrect plist type. Expected array.".toList := by
  constructor
  · rw [extract_bookmarks_skip_all pre hpre]
    exact extract_bookmarks_objects_not_array v hv rest
  · decide

/-- Witness for C3 at a concrete input: a string-valued `$objects` entry. -/
theorem claim_C3_witness :
    extract_bookmarks [("$objects", Value.string "abc")]
      = Except.error ⟨"InvalidInput", "Incorrect plist type. Expected array."⟩
    ∧ "array".toList <:+: "Incorrect plist type. Expected array.".toList :=
  claim_C3 [] (by simp) (Value.string "abc") rfl []

/-- C4: a root dictionary with no `$objects` key yields the empty result as
a success, not an error. -/
theorem claim_C4 (d : Dictionary) (h : ∀ e ∈ d, e.1 ≠ "$objects") :
    extract_bookmarks d = Except.ok ([], []) := by
  have hd := extract_bookmarks_skip_all d h []
  simpa [extract_bookmarks] using hd

/-- Witness for C4 at a concrete input: a one-entry dictionary with an
unrelated key. -/
theorem claim_C4_witness :
    extract_bookmarks [("foo", Value.other)] = Except.ok ([], []) :=
  claim_C4 [("foo", Value.other)] (by simp)

/-- C5: traversal order is preserved — when a Data element precedes a
Dictionary element containing a qualifying (at least 48 bytes) Data entry,
the former's bytes appear strictly before the latter's in the result. -/
theorem claim_C5 (pre mid post : List Value) (a : List Nat)
    (d : Dictionary) (k : String) (bs : List Nat)
    (hmem : (k, Value.data bs) ∈ d) (hlen : min_bookmark_size ≤ bs.length) :
    ∃ l r, extract_bookmarks [("$objects",
        Value.array (pre ++ Value.data a :: (mid ++ Value.dictionary d :: post)))]
        = Except.ok (l ++ a :: r, []) ∧ bs ∈ r := by
  refine ⟨spec_blobs pre, spec_blobs mid ++ dict_blobs d ++ spec_blobs post, ?_, ?_⟩
  · rw [extract_bookmarks_objects_array]
    simp [spec_blobs_append, spec_blobs, elem_blobs, List.append_assoc]
  · have hb : bs ∈ dict_blobs d := mem_dict_blobs d k bs hmem hlen
    simp [hb]

/-- Witness for C5 at a concrete input: a top-level 1-byte Data followed by
a dictionary holding a 48-byte Data entry. -/
theorem claim_C5_witness :
    ∃ l r, extract_bookmarks [("$objects",
        Value.array ([] ++ Value.data [7] :: ([] ++
          Value.dictionary [("b", Value.data (List.replicate 48 1))] :: [])))]
        = Except.ok (l ++ [7] :: r, []) ∧ List.replicate 48 1 ∈ r :=
  claim_C5 [] [] [] [7] [("b", Value.data (List.replicate 48 1))] "b"
    (List.replicate 48 1) (by simp) (by simp [min_bookmark_size])

/-- C6: array elements that are neither Data nor Dictionary, and
nested-dictionary entries whose value is not Data, are skipped without
error: extraction succeeds with exactly the blobs of the other elements. -/
theorem claim_C6 :
    (∀ (pre post : List Value) (v : Value), as_data v = none →
        as_dictionary v = none →
        extract_bookmarks [("$objects", Value.array (pre ++ v :: post))]
          = Except.ok (spec_blobs pre ++ spec_blobs post, []))
    ∧ (∀ (pre post : List Value) (d1 d2 : Dictionary) (k : String) (w : Value),
        as_data w = none →
        extract_bookmarks [("$objects",
            Value.array (pre ++ Value.dictionary (d1 ++ (k, w) :: d2) :: post))]
          = Except.ok (spec_blobs pre ++ (dict_blobs d1 ++ dict_blobs d2)
              ++ spec_blobs post, [])) := by
  constructor
  · intro pre post v hd hdict
    rw [extract_bookmarks_objects_array]
    have hv : elem_blobs v = [] := by
      cases v <;> simp_all [as_data, as_dictionary, elem_blobs]
    simp [spec_blobs_append, spec_blobs, hv]
  · intro pre post d1 d2 k w hw
    rw [extract_bookmarks_objects_array]
    have he : entry_blobs w = [] := by
      cases w <;> simp_all [as_data, entry_blobs]
    simp [spec_blobs_append, spec_blobs, elem_blobs, dict_blobs_append, dict_blobs,
      he, List.append_assoc]

/-- Witness for C6 at concrete inputs: a string element next to a Data
element, and a dictionary whose single entry is a string. -/
theorem claim_C6_witness :
    extract_bookmarks [("$objects", Value.array [Value.data [5], Value.string "x"])]
      = Except.ok ([[5]], [])
    ∧ extract_bookmarks [("$objects", Value.array
        [Value.dictionary [("k", Value.string "y")]])]
      = Except.ok ([], []) := by
  constructor
  · have h := claim_C6.1 [Value.data [5]] [] (Value.string "x") rfl rfl
    simpa [spec_blobs, elem_blobs] using h
  · have h := claim_C6.2 [] [] [] [] "k" (Value.string "y") rfl
    simpa [spec_blobs, dict_blobs, elem_blobs] using h

/-- C7: when a tagged-as-Data value yields no raw bytes, the corresponding
branch emits the warning diagnostic, leaves the accumulated blobs
unchanged, and continues; the traversal as a whole never produces an
error. -/
theorem claim_C7 :
    (∀ (acc : List (List Nat)) (warns : List String),
        handle_top_data none acc warns = (acc, warns ++ ["No PLIST data"]))
    ∧ (∀ (acc : List (List Nat)) (warns : List String),
        handle_dict_data none acc warns
          = (acc, warns ++ ["No PLIST data in dictionary"]))
    ∧ (∀ v : Value, ∃ out, get_array_values v = Except.ok out) := by
  refine ⟨fun acc warns => rfl, fun acc warns => rfl, fun v => ?_⟩
  cases hva : as_array v with
  | some vs =>
      exact ⟨(spec_blobs vs, []), by simp [get_array_values, hva, array_foldl_eq]⟩
  | none => exact ⟨([], []), by simp [get_array_values, hva]⟩

/-- C8: the login-items reader is a pure pass-through of the loader's
result — a successful load is returned unmodified and a load error is
propagated unchanged. -/
theorem claim_C8 (ε : Type) :
    (∀ d : Dictionary,
        get_app_loginitems (Except.ok d : Except ε Dictionary) = Except.ok d)
    ∧ (∀ e : ε,
        get_app_loginitems (Except.error e : Except ε Dictionary) = Except.error e) :=
  ⟨fun _ => rfl, fun _ => rfl⟩

/-- C9: the array-traversal helper returns the empty result as a success on
any non-Array input, and is total — it never returns an error on any
input. -/
theorem claim_C9 :
    (∀ v : Value, as_array v = none → get_array_values v = Except.ok ([], []))
    ∧ (∀ v : Value, ∃ out, get_array_values v = Except.ok out) := by
  refine ⟨fun v hv => get_array_values_not_array v hv, fun v => ?_⟩
  cases hva : as_array v with
  | some vs =>
      exact ⟨(spec_blobs vs, []), by simp [get_array_values, hva, array_foldl_eq]⟩
  | none => exact ⟨([], []), by simp [get_array_values, hva]⟩

/-- Witness for C9 at a concrete input: a string value. -/
theorem claim_C9_witness : get_array_values (Value.string "x") = Except.ok ([], []) :=
  claim_C9.1 (Value.string "x") rfl

/-- C10: soundness — every blob in a successful extraction result is
byte-for-byte the payload of a Data node located directly in the
`$objects` array or as an entry value of a dictionary directly in that
array; nothing is fabricated, truncated, or concatenated. -/
theorem claim_C10 (root : Dictionary) (out : List (List Nat)) (warns : List String)
    (h : extract_bookmarks root = Except.ok (out, warns)) (bs : List Nat)
    (hbs : bs ∈ out) :
    ∃ vs, ("$objects", Value.array vs) ∈ root ∧
      (Value.data bs ∈ vs
        ∨ ∃ d, Value.dictionary d ∈ vs ∧ ∃ k, (k, Value.data bs) ∈ d) := by
  obtain ⟨vs, hmem, hb⟩ := extract_ok_source root out warns h bs hbs
  rcases mem_spec_blobs_source vs bs hb with h1 | h2
  · exact ⟨vs, hmem, Or.inl h1⟩
  · exact ⟨vs, hmem, Or.inr h2⟩

/-- Witness for C10 at a concrete input: a singleton array holding one
Data element. -/
theorem claim_C10_witness :
    ∃ vs, ("$objects", Value.array vs)
        ∈ ([("$objects", Value.array [Value.data [9]])] : Dictionary) ∧
      (Value.data [9] ∈ vs
        ∨ ∃ d, Value.dictionary d ∈ vs ∧ ∃ k, (k, Value.data [9]) ∈ d) :=
  claim_C10 [("$objects", Value.array [Value.data [9]])] [[9]] []
    (by rw [extract_bookmarks_objects_array]; simp [spec_blobs, elem_blobs]) [9]
    (by simp)

end LoginItems
